import Mathlib

/-!
Shallow embedding of the column profiler in src/validation/manager.py.

Python strings are modelled as lists of characters; the model covers the
ASCII fragment of Python string and regex semantics (the repository feeds
tab-separated text through these functions). Fallible code paths are
modelled with Option / Except values; the floating point percentage in the
column report is modelled as an exact rational.
-/

/-- Decidable equality of Except values, used to evaluate the model on
concrete inputs. -/
instance {ε α} [DecidableEq ε] [DecidableEq α] : DecidableEq (Except ε α) :=
  fun a b =>
    match a, b with
    | .error e, .error e' =>
      if h : e = e' then .isTrue (by rw [h]) else .isFalse (by
        intro hc
        injection hc
        contradiction)
    | .error _, .ok _ => .isFalse (fun hc => Except.noConfusion hc)
    | .ok _, .error _ => .isFalse (fun hc => Except.noConfusion hc)
    | .ok v, .ok v' =>
      if h : v = v' then .isTrue (by rw [h]) else .isFalse (by
        intro hc
        injection hc
        contradiction)

namespace Profiler

/-! Character helpers (ASCII model of the Python semantics used by
the regex pattern r"[^a-zA-Z0-9\s]" at manager.py line 30, str.lower,
str.upper, str.replace and the regex r"^\d"). -/

/-- Characters kept by the character class [a-zA-Z0-9] of Manager.pattern. -/
def isAlnumAscii (c : Char) : Bool :=
  decide ((97 ≤ c.toNat ∧ c.toNat ≤ 122) ∨ (65 ≤ c.toNat ∧ c.toNat ≤ 90) ∨
    (48 ≤ c.toNat ∧ c.toNat ≤ 57))

/-- Characters matched by the regex class \s (ASCII part): space, tab,
newline, vertical tab, form feed, carriage return. -/
def isSpacePy (c : Char) : Bool :=
  decide (c.toNat = 32 ∨ c.toNat = 9 ∨ c.toNat = 10 ∨ c.toNat = 11 ∨
    c.toNat = 12 ∨ c.toNat = 13)

/-- Characters matched by the regex class \d (ASCII part). -/
def isDigitPy (c : Char) : Bool :=
  decide (48 ≤ c.toNat ∧ c.toNat ≤ 57)

/-- Lowercase ASCII letters and ASCII digits. -/
def isLowerAlnumAscii (c : Char) : Bool :=
  decide ((97 ≤ c.toNat ∧ c.toNat ≤ 122) ∨ (48 ≤ c.toNat ∧ c.toNat ≤ 57))

/-- Python str.lower on one character (ASCII model). -/
def toLowerPy (c : Char) : Char :=
  if 65 ≤ c.toNat ∧ c.toNat ≤ 90 then Char.ofNat (c.toNat + 32) else c

/-- Python str.upper on one character (ASCII model). -/
def toUpperPy (c : Char) : Char :=
  if 97 ≤ c.toNat ∧ c.toNat ≤ 122 then Char.ofNat (c.toNat - 32) else c

/-- Manager._derive_attribute_name (manager.py lines 347-359):
re.sub(r"[^a-zA-Z0-9\s]", "", column_name), then .lower(),
then .replace(" ", "") - note that replace removes only the space
character U+0020, not other whitespace kept by \s. -/
def deriveAttributeName (columnName : List Char) : List Char :=
  ((columnName.filter (fun c => isAlnumAscii c || isSpacePy c)).map
    toLowerPy).filter (fun c => decide (c ≠ ' '))

/-- Test of re.search(r"^\d", val): does the string start with a digit. -/
def startsWithDigitPy (s : List Char) : Bool :=
  match s with
  | [] => false
  | c :: _ => isDigitPy c

/-- Member-name derivation inside Manager._load_enum_lookup (manager.py
lines 231-241): the attribute-name derivation of the value, uppercased;
but when that result has length 1 or the RAW VALUE starts with a digit,
the emitted name is class_name.upper() ++ "_" ++ val.upper() (the raw
value uppercased, not the derived result). -/
def deriveEnumName (className val : List Char) : List Char :=
  let enumName := (deriveAttributeName val).map toUpperPy
  if decide (enumName.length = 1) || startsWithDigitPy val then
    className.map toUpperPy ++ '_' :: val.map toUpperPy
  else
    enumName

/-- The member-name rule as the specification words it (for comparison
with deriveEnumName): both the digit test and the prefixed branch use the
derived, uppercased result rather than the raw value. -/
def specEnumName (className val : List Char) : List Char :=
  let enumName := (deriveAttributeName val).map toUpperPy
  if decide (enumName.length = 1) || startsWithDigitPy enumName then
    className.map toUpperPy ++ '_' :: enumName
  else
    enumName

/-! Python numeric-literal probing: Manager._is_convertible_to_int and
Manager._is_convertible_to_float (manager.py lines 493-521) call int(...)
and float(...) and treat ValueError as false. Modelled for ASCII decimal
strings: optional surrounding whitespace, optional sign, digits with an
optional point and exponent; inf / infinity / nan accepted by float.
Underscore digit grouping and non-ASCII digits are outside the model. -/

/-- Strip leading and trailing whitespace as int() and float() do. -/
def stripPy (s : List Char) : List Char :=
  ((s.dropWhile isSpacePy).reverse.dropWhile isSpacePy).reverse

/-- Drop one leading + or - sign when present. -/
def dropSign (s : List Char) : List Char :=
  match s with
  | [] => []
  | c :: rest => if c = '+' ∨ c = '-' then rest else c :: rest

/-- Manager._is_convertible_to_int: int(value) succeeds. -/
def isConvertibleToInt (s : List Char) : Bool :=
  let body := dropSign (stripPy s)
  !body.isEmpty && body.all isDigitPy

/-- Optional sign followed by a nonempty digit string (an exponent body). -/
def signedDigits (s : List Char) : Bool :=
  let b := dropSign s
  !b.isEmpty && b.all isDigitPy

/-- Empty rest, or an exponent marker e / E followed by signed digits. -/
def expPartOk (s : List Char) : Bool :=
  match s with
  | [] => true
  | c :: rest => (c = 'e' ∨ c = 'E') && signedDigits rest

/-- Decimal mantissa with optional fraction part, then optional exponent. -/
def floatBody (s : List Char) : Bool :=
  let intPart := s.takeWhile isDigitPy
  let rest := s.dropWhile isDigitPy
  match rest with
  | '.' :: rest2 =>
    let fracPart := rest2.takeWhile isDigitPy
    let rest3 := rest2.dropWhile isDigitPy
    (!intPart.isEmpty || !fracPart.isEmpty) && expPartOk rest3
  | _ => !intPart.isEmpty && expPartOk rest

/-- The special float spellings accepted case-insensitively by float(). -/
def isInfNanBody (b : List Char) : Bool :=
  b = ['i', 'n', 'f'] || b = ['i', 'n', 'f', 'i', 'n', 'i', 't', 'y'] ||
    b = ['n', 'a', 'n']

/-- Manager._is_convertible_to_float: float(value) succeeds. -/
def isConvertibleToFloat (s : List Char) : Bool :=
  let body := dropSign (stripPy s)
  floatBody body || isInfNanBody (body.map toLowerPy)

/-! Manager._determine_datatype (manager.py lines 443-491). The Python
variable first_datatype holds the STRING "int" or "float" when the first
value parses as a number, and otherwise the CLASS object str; the final
comparison type(value) != first_datatype compares a class against that
variable, so it can only succeed when the first value was a plain string. -/

/-- The three possible states of the Python variable first_datatype. -/
inductive FirstDatatype
  | tagInt
  | tagFloat
  | tagStr
deriving DecidableEq

/-- Lines 449-464: classify the first value. -/
def firstDatatypeOf (first : List Char) : FirstDatatype :=
  if isConvertibleToInt first then .tagInt
  else if isConvertibleToFloat first then .tagFloat
  else .tagStr

/-- One iteration of the loop at lines 469-485; true means the loop
continues to the next value, false means it returns "different".
When the value is int-convertible it is rebound to an int, so the final
comparison type(value) != first_datatype sees the class int; it equals
first_datatype in no case, because first_datatype is then either the
string "int" / "float" or the class str. The float branch is analogous,
and a value that parses as neither stays a str, which matches
first_datatype exactly when the first value was a plain string. -/
def valueConsistent (first : FirstDatatype) (value : List Char) : Bool :=
  if isConvertibleToInt value then
    decide (first = .tagInt)
  else if isConvertibleToFloat value then
    decide (first = .tagFloat)
  else
    decide (first = .tagStr)

/-- Manager._determine_datatype: error () models logging.error followed by
sys.exit(1) on an empty list; the early return inside the loop is
equivalent to the short-circuit of List.all. first_datatype_clean is
"int", "float", or "str" (the latter via str(type(values[0]))). -/
def determineDatatype (values : List (List Char)) : Except Unit String :=
  match values with
  | [] => .error ()
  | first :: rest =>
    let firstTag := firstDatatypeOf first
    if rest.all (valueConsistent firstTag) then
      .ok (match firstTag with
        | .tagInt => "int"
        | .tagFloat => "float"
        | .tagStr => "str")
    else
      .ok ("different")

/-! The per-column scan of Manager._process_columns_for_tsv_file
(manager.py lines 167-216). A parsed tab-separated file is a list of rows,
each row a list of field strings, exactly as produced by csv.reader: a
blank line yields the empty row. -/

/-- Python dict counting step for uniq_val_lookup (lines 184-188): a new
value is appended at the end with count 1 (the code first stores 0 and
immediately increments); an existing value has its count incremented in
place. uniq_val_list and uniq_val_ctr are the keys and the length of this
association list, since insertion order is preserved. -/
def bumpCount (d : List (String × Nat)) (v : String) : List (String × Nat) :=
  match d with
  | [] => [(v, 1)]
  | (k, c) :: rest =>
    if k = v then (k, c + 1) :: rest else (k, c) :: bumpCount rest v

/-- How a per-column pass can abort: indexError models the uncaught
IndexError raised by row[column_position] (no handler anywhere on the call
path), emptyValuesExit models the logging.error plus sys.exit(1) inside
_determine_datatype. -/
inductive ProfileError
  | indexError
  | emptyValuesExit
deriving DecidableEq

/-- The row loop at lines 173-188: row_ctr counts every row read
(including the header and blank rows), the header row (row_ctr = 1) and
zero-length rows are skipped, and every other row is read at
column_position without a bounds check. -/
def scanLoop (columnPosition : Nat) :
    List (List String) → Nat → List (String × Nat) →
      Except ProfileError (Nat × List (String × Nat))
  | [], rowCtr, acc => .ok (rowCtr, acc)
  | row :: rest, rowCtr, acc =>
    if rowCtr + 1 = 1 then
      scanLoop columnPosition rest (rowCtr + 1) acc
    else if row.length = 0 then
      scanLoop columnPosition rest (rowCtr + 1) acc
    else
      match row.get? columnPosition with
      | none => .error .indexError
      | some val => scanLoop columnPosition rest (rowCtr + 1) (bumpCount acc val)

/-- One full file pass for one column, returning the final row_ctr and
uniq_val_lookup. -/
def scanColumn (rows : List (List String)) (columnPosition : Nat) :
    Except ProfileError (Nat × List (String × Nat)) :=
  scanLoop columnPosition rows 0 []

/-- The per-column results assembled by _process_columns_for_tsv_file:
lines 190-195 map the "different" datatype to "str", line 197 compares
uniq_val_ctr against the configured max_equality_values. -/
structure ColumnProfile where
  uniqValLookup : List (String × Nat)
  uniqValCtr : Nat
  rowCtr : Nat
  datatype : String
  isEnum : Bool
deriving DecidableEq

/-- Scan one column and derive its datatype and enum eligibility
(manager.py lines 167-207). -/
def profileColumn (rows : List (List String))
    (columnPosition maxEqualityValues : Nat) :
    Except ProfileError ColumnProfile :=
  match scanColumn rows columnPosition with
  | .error e => .error e
  | .ok (rowCtr, uniqValLookup) =>
    let uniqValList := uniqValLookup.map Prod.fst
    let uniqValCtr := uniqValLookup.length
    match determineDatatype (uniqValList.map String.toList) with
    | .error () => .error .emptyValuesExit
    | .ok dt =>
      .ok { uniqValLookup := uniqValLookup
            uniqValCtr := uniqValCtr
            rowCtr := rowCtr
            datatype := if dt = "different" then "str" else dt
            isEnum := decide (uniqValCtr ≤ maxEqualityValues) }

/-! Manager._write_column_report_file (manager.py lines 243-285). Each
constructor stands for one formatted output line, in file order; the
formatting templates are injective in their arguments, so two report files
are byte-identical exactly when their line lists are equal. The float
percentage count / total_row_count * 100 is modelled as an exact
rational. -/

/-- One line of a column report file. -/
inductive ReportLine
  | methodCreated (path : String)
  | dateCreated (timestamp : String)
  | createdBy (user : String)
  | infileLine (infile : String)
  | logfileLine (logfile : String)
  | columnNameLine (name : String)
  | columnPositionLine (pos : Nat)
  | numberOfDataRows (n : Int)
  | uniqueValuesHeader (n : Nat)
  | valueLine (value : String) (count : Nat) (percentage : ℚ)
deriving DecidableEq

/-- The lines written by _write_column_report_file, in order:
total_row_count = row_ctr - 1 (an int in Python, hence ℤ here), one
metadata header block, then one line per distinct value. -/
def writeColumnReportLines (columnName : String) (columnPosition : Nat)
    (infile : String) (uniqValCtr : Nat) (uniqValLookup : List (String × Nat))
    (rowCtr : Nat) (methodPath timestamp user logfile : String) :
    List ReportLine :=
  let totalRowCount : Int := (rowCtr : Int) - 1
  ReportLine.methodCreated methodPath ::
  ReportLine.dateCreated timestamp ::
  ReportLine.createdBy user ::
  ReportLine.infileLine infile ::
  ReportLine.logfileLine logfile ::
  ReportLine.columnNameLine columnName ::
  ReportLine.columnPositionLine columnPosition ::
  ReportLine.numberOfDataRows totalRowCount ::
  ReportLine.uniqueValuesHeader uniqValCtr ::
  uniqValLookup.map (fun p =>
    ReportLine.valueLine p.1 p.2 ((p.2 : ℚ) / (totalRowCount : ℚ) * 100))

/-- One iteration of the per-column loop in order (lines 167-216): scan,
datatype inference (which exits the process on an empty value list, so no
report is written then), enum decision, then the report file. The scan
results uniq_val_ctr, uniq_val_lookup, row_ctr feed
_write_column_report_file directly. -/
def processColumn (rows : List (List String)) (columnName : String)
    (columnPosition maxEqualityValues : Nat)
    (infile methodPath timestamp user logfile : String) :
    Except ProfileError (ColumnProfile × List ReportLine) :=
  match profileColumn rows columnPosition maxEqualityValues with
  | .error e => .error e
  | .ok p =>
    .ok (p, writeColumnReportLines columnName columnPosition infile
      p.uniqValCtr p.uniqValLookup p.rowCtr methodPath timestamp user
      logfile)

/-- Sum of the counts of an association list of value counts. -/
def sumCounts (d : List (String × Nat)) : Nat :=
  (d.map Prod.snd).sum

/-- Sum of the per-value counts over all percentage lines of a report. -/
def reportValueCountSum (lines : List ReportLine) : Nat :=
  (lines.map (fun l =>
    match l with
    | .valueLine _ c _ => c
    | _ => 0)).sum

/-- The number printed on the "Number of data rows" line of a report,
which is also the denominator of every percentage line. -/
def reportDataRows (lines : List ReportLine) : Option Int :=
  lines.findSome? (fun l =>
    match l with
    | .numberOfDataRows n => some n
    | _ => none)

/-! Manager._derive_column_headers_for_tsv_file (manager.py lines 311-345)
plus the existence check of its caller (lines 101-102). -/

/-- Python dict assignment lookup[field] = ctr: an existing key keeps its
position in insertion order and gets the new value, a new key is appended
at the end. -/
def dictInsert (d : List (String × Nat)) (k : String) (v : Nat) :
    List (String × Nat) :=
  match d with
  | [] => [(k, v)]
  | (k', v') :: rest =>
    if k' = k then (k', v) :: rest else (k', v') :: dictInsert rest k v

/-- Python dict lookup on an association list. -/
def lookupVal (d : List (String × Nat)) (k : String) : Option Nat :=
  match d with
  | [] => none
  | (k', v) :: rest => if k' = k then some v else lookupVal rest k

/-- The header loop at lines 330-336: for each header field,
lookup[field] = column_ctr and column_ctr += 1. Returns the lookup and the
final column_ctr, which line 341 logs as the number of columns found. -/
def headerLoop : List String → Nat → List (String × Nat) →
    List (String × Nat) × Nat
  | [], ctr, acc => (acc, ctr)
  | field :: rest, ctr, acc => headerLoop rest (ctr + 1) (dictInsert acc field ctr)

/-- The header parser together with the missing-file check of its caller
(line 101 raises when the file does not exist, modelled by the none case).
An existing but empty file yields no rows from csv.reader, so the loop
body never runs and the empty lookup is returned with column_ctr = 0; only
the first row of a non-empty file is read before the break. -/
def deriveColumnHeaders (file : Option (List (List String))) :
    Except Unit (List (String × Nat) × Nat) :=
  match file with
  | none => .error ()
  | some [] => .ok ([], 0)
  | some (headerRow :: _) => .ok (headerLoop headerRow 0 [])

/-- Index of the last occurrence of a string in a list. -/
def lastIdx : List String → String → Option Nat
  | [], _ => none
  | f :: rest, k =>
    match lastIdx rest k with
    | some j => some (j + 1)
    | none => if f = k then some 0 else none

/-! Helper lemmas about the character model. -/

lemma charOfNat_toNat_of_lower {n : Nat} (h1 : 97 ≤ n) (h2 : n ≤ 122) :
    (Char.ofNat n).toNat = n := by
  interval_cases n <;> decide

lemma toLowerPy_of_alnum {c : Char} (h : isAlnumAscii c = true) :
    isLowerAlnumAscii (toLowerPy c) = true := by
  simp only [isAlnumAscii, decide_eq_true_eq] at h
  unfold toLowerPy
  by_cases hc : 65 ≤ c.toNat ∧ c.toNat ≤ 90
  · rw [if_pos hc]
    have hr := charOfNat_toNat_of_lower (n := c.toNat + 32) (by omega) (by omega)
    simp only [isLowerAlnumAscii, decide_eq_true_eq, hr]
    omega
  · rw [if_neg hc]
    simp only [isLowerAlnumAscii, decide_eq_true_eq]
    omega

lemma toLowerPy_of_space {c : Char} (h : isSpacePy c = true) : toLowerPy c = c := by
  simp only [isSpacePy, decide_eq_true_eq] at h
  unfold toLowerPy
  rw [if_neg (by omega)]

/-- Every character of an attribute name is the Python lowercasing of an
input character that is ASCII-alphanumeric or whitespace, and is not the
space character. -/
lemma mem_deriveAttributeName {s : List Char} {c : Char}
    (hc : c ∈ deriveAttributeName s) :
    ∃ c₀, c₀ ∈ s ∧ toLowerPy c₀ = c ∧
      (isAlnumAscii c₀ = true ∨ isSpacePy c₀ = true) ∧ c ≠ ' ' := by
  simp only [deriveAttributeName, List.mem_filter, List.mem_map,
    decide_eq_true_eq] at hc
  obtain ⟨⟨c₀, ⟨hmem, hkeep⟩, hlow⟩, hne⟩ := hc
  exact ⟨c₀, hmem, hlow, by
    rcases Bool.or_eq_true _ _ ▸ hkeep with h | h
    · exact Or.inl h
    · exact Or.inr h, hne⟩

/-! Helper lemmas about the per-column scan. -/

/-- Once past the header row, a scan whose remaining rows are wide enough
at the scanned position never raises. -/
lemma scanLoop_ok_of_inbounds (pos : Nat) :
    ∀ (rs : List (List String)) (ctr : Nat) (acc : List (String × Nat)),
      1 ≤ ctr →
      (∀ row ∈ rs, row ≠ [] → pos < row.length) →
      ∃ r, scanLoop pos rs ctr acc = .ok r := by
  intro rs
  induction rs with
  | nil => exact fun ctr acc _ _ => ⟨(ctr, acc), rfl⟩
  | cons row rest ih =>
    intro ctr acc hctr hrows
    simp only [scanLoop]
    rw [if_neg (by omega)]
    by_cases hrow : row.length = 0
    · rw [if_pos hrow]
      exact ih (ctr + 1) acc (by omega)
        (fun r hr h => hrows r (List.mem_cons_of_mem _ hr) h)
    · rw [if_neg hrow]
      have hlt : pos < row.length := by
        refine hrows row (List.mem_cons_self _ _) ?_
        intro hnil
        exact hrow (by simp [hnil])
      rw [List.get?_eq_get hlt]
      exact ih (ctr + 1) (bumpCount acc (row.get ⟨pos, hlt⟩)) (by omega)
        (fun r hr h => hrows r (List.mem_cons_of_mem _ hr) h)

/-- A counting step adds exactly one to the total count. -/
lemma sumCounts_bumpCount (acc : List (String × Nat)) (v : String) :
    sumCounts (bumpCount acc v) = sumCounts acc + 1 := by
  induction acc with
  | nil => rfl
  | cons p rest ih =>
    obtain ⟨k, c⟩ := p
    simp only [bumpCount]
    by_cases h : k = v
    · rw [if_pos h]
      simp only [sumCounts, List.map_cons, List.sum_cons] at *
      omega
    · rw [if_neg h]
      simp only [sumCounts, List.map_cons, List.sum_cons] at *
      omega

/-- Past the header row and with no blank rows, a successful scan adds
one row and one observed value per remaining row. -/
lemma scanLoop_noBlank (pos : Nat) :
    ∀ (rs : List (List String)) (ctr : Nat) (acc : List (String × Nat))
      (ctr' : Nat) (acc' : List (String × Nat)),
      1 ≤ ctr →
      (∀ row ∈ rs, row ≠ []) →
      scanLoop pos rs ctr acc = .ok (ctr', acc') →
      ctr' = ctr + rs.length ∧ sumCounts acc' = sumCounts acc + rs.length := by
  intro rs
  induction rs with
  | nil =>
    intro ctr acc ctr' acc' _ _ h
    have h' := Except.ok.inj h
    injection h' with h1 h2
    subst h1
    subst h2
    simp
  | cons row rest ih =>
    intro ctr acc ctr' acc' hctr hrows h
    simp only [scanLoop] at h
    rw [if_neg (by omega)] at h
    have hrow : ¬row.length = 0 := by
      intro h0
      exact hrows row (List.mem_cons_self _ _) (List.length_eq_zero.mp h0)
    rw [if_neg hrow] at h
    cases hg : row.get? pos with
    | none =>
      rw [hg] at h
      exact absurd h (by simp)
    | some val =>
      rw [hg] at h
      obtain ⟨h1, h2⟩ := ih (ctr + 1) (bumpCount acc val) ctr' acc' (by omega)
        (fun r hr => hrows r (List.mem_cons_of_mem _ hr)) h
      constructor
      · rw [h1]
        simp
        omega
      · rw [h2, sumCounts_bumpCount]
        simp
        omega

/-- A successful profile carries exactly the row counter and value table
of its scan. -/
lemma profileColumn_scan {rows : List (List String)} {pos maxEq : Nat}
    {q : ColumnProfile} (h : profileColumn rows pos maxEq = .ok q) :
    scanColumn rows pos = .ok (q.rowCtr, q.uniqValLookup) := by
  simp only [profileColumn] at h
  split at h
  · exact absurd h (by simp)
  · split at h
    · exact absurd h (by simp)
    · have hq := Except.ok.inj h
      subst hq
      assumption

/-- The "Number of data rows" line of a column report always carries
row_ctr - 1. -/
lemma reportDataRows_write (cn : String) (pos : Nat)
    (infile : String) (ctr : Nat) (lookup : List (String × Nat))
    (rowCtr : Nat) (m t u l : String) :
    reportDataRows (writeColumnReportLines cn pos infile ctr lookup rowCtr m t u l) =
      some ((rowCtr : Int) - 1) := rfl

/-- The per-value counts of a column report sum to the total count of its
value table. -/
lemma reportValueCountSum_write (cn : String) (pos : Nat)
    (infile : String) (ctr : Nat) (lookup : List (String × Nat))
    (rowCtr : Nat) (m t u l : String) :
    reportValueCountSum (writeColumnReportLines cn pos infile ctr lookup rowCtr m t u l) =
      sumCounts lookup := by
  simp only [reportValueCountSum, writeColumnReportLines, List.map_cons,
    List.sum_cons, List.map_map, sumCounts]
  simp only [Nat.zero_add]
  rfl

/-! Helper lemmas about the header lookup. -/

lemma lookupVal_dictInsert (d : List (String × Nat)) (k : String) (v : Nat)
    (k2 : String) :
    lookupVal (dictInsert d k v) k2 = if k = k2 then some v else lookupVal d k2 := by
  induction d with
  | nil => simp [dictInsert, lookupVal]
  | cons p rest ih =>
    obtain ⟨a, b⟩ := p
    by_cases hak : a = k
    · subst hak
      by_cases hk2 : a = k2
      · subst hk2
        simp [dictInsert, lookupVal]
      · simp [dictInsert, lookupVal, hk2]
    · by_cases hk2 : a = k2
      · subst hk2
        have h1 : dictInsert ((a, b) :: rest) k v = (a, b) :: dictInsert rest k v := by
          simp [dictInsert, hak]
        rw [h1, if_neg (fun h => hak h.symm)]
        simp [lookupVal]
      · simp [dictInsert, lookupVal, hak, hk2, ih]

lemma mem_keys_dictInsert {d : List (String × Nat)} {k : String} {v : Nat}
    {a : String} :
    a ∈ (dictInsert d k v).map Prod.fst ↔ a ∈ d.map Prod.fst ∨ a = k := by
  induction d with
  | nil => simp [dictInsert]
  | cons p rest ih =>
    obtain ⟨x, y⟩ := p
    simp only [dictInsert]
    by_cases hxk : x = k
    · subst hxk
      rw [if_pos rfl]
      simp only [List.map_cons, List.mem_cons]
      tauto
    · rw [if_neg hxk]
      simp only [List.map_cons, List.mem_cons, ih]
      tauto

lemma nodup_keys_dictInsert {d : List (String × Nat)} {k : String} {v : Nat}
    (h : (d.map Prod.fst).Nodup) : ((dictInsert d k v).map Prod.fst).Nodup := by
  induction d with
  | nil => simp [dictInsert]
  | cons p rest ih =>
    obtain ⟨x, y⟩ := p
    simp only [List.map_cons, List.nodup_cons] at h
    simp only [dictInsert]
    by_cases hxk : x = k
    · subst hxk
      rw [if_pos rfl]
      simp only [List.map_cons, List.nodup_cons]
      exact h
    · rw [if_neg hxk]
      simp only [List.map_cons, List.nodup_cons]
      refine ⟨?_, ih h.2⟩
      rw [mem_keys_dictInsert]
      rintro (hx | hx)
      · exact h.1 hx
      · exact hxk hx

lemma headerLoop_ctr (fields : List String) :
    ∀ (ctr : Nat) (acc : List (String × Nat)),
      (headerLoop fields ctr acc).2 = ctr + fields.length := by
  induction fields with
  | nil => intro ctr acc; simp [headerLoop]
  | cons f rest ih =>
    intro ctr acc
    simp only [headerLoop, ih, List.length_cons]
    omega

lemma lookupVal_headerLoop (fields : List String) :
    ∀ (ctr : Nat) (acc : List (String × Nat)) (k : String),
      lookupVal (headerLoop fields ctr acc).1 k =
        (lastIdx fields k).elim (lookupVal acc k) (fun j => some (ctr + j)) := by
  induction fields with
  | nil => intro ctr acc k; simp [headerLoop, lastIdx]
  | cons f rest ih =>
    intro ctr acc k
    simp only [headerLoop, lastIdx]
    rw [ih]
    cases hl : lastIdx rest k with
    | some j =>
      simp only [hl, Option.elim]
      congr 1
      omega
    | none =>
      simp only [hl, Option.elim, lookupVal_dictInsert]
      by_cases hfk : f = k
      · simp [hfk]
      · simp [hfk]

lemma mem_keys_headerLoop (fields : List String) :
    ∀ (ctr : Nat) (acc : List (String × Nat)) (k : String),
      k ∈ (headerLoop fields ctr acc).1.map Prod.fst ↔
        k ∈ fields ∨ k ∈ acc.map Prod.fst := by
  induction fields with
  | nil => intro ctr acc k; simp [headerLoop]
  | cons f rest ih =>
    intro ctr acc k
    simp only [headerLoop, ih, mem_keys_dictInsert, List.mem_cons]
    tauto

lemma nodup_keys_headerLoop (fields : List String) :
    ∀ (ctr : Nat) (acc : List (String × Nat)),
      (acc.map Prod.fst).Nodup → ((headerLoop fields ctr acc).1.map Prod.fst).Nodup := by
  induction fields with
  | nil => intro ctr acc h; exact h
  | cons f rest ih =>
    intro ctr acc h
    exact ih (ctr + 1) _ (nodup_keys_dictInsert h)

lemma lastIdx_get {fields : List String} {k : String} :
    ∀ {j : Nat}, lastIdx fields k = some j → fields.get? j = some k := by
  induction fields with
  | nil => intro j h; exact absurd h (by simp [lastIdx])
  | cons f rest ih =>
    intro j h
    simp only [lastIdx] at h
    cases hl : lastIdx rest k with
    | some j' =>
      rw [hl] at h
      have hj := Option.some.inj h
      subst hj
      exact ih hl
    | none =>
      rw [hl] at h
      by_cases hfk : f = k
      · rw [if_pos hfk] at h
        have hj := Option.some.inj h
        subst hj
        simpa using hfk
      · rw [if_neg hfk] at h
        exact absurd h (by simp)

lemma lastIdx_none {fields : List String} {k : String}
    (h : lastIdx fields k = none) : ∀ m, fields.get? m ≠ some k := by
  induction fields with
  | nil => intro m; simp
  | cons f rest ih =>
    intro m
    simp only [lastIdx] at h
    cases hl : lastIdx rest k with
    | some j' => rw [hl] at h; exact absurd h (by simp)
    | none =>
      rw [hl] at h
      by_cases hfk : f = k
      · rw [if_pos hfk] at h; exact absurd h (by simp)
      · rw [if_neg hfk] at h
        cases m with
        | zero =>
          intro hc
          exact hfk (Option.some.inj hc)
        | succ m' => exact ih hl m'

lemma lastIdx_last {fields : List String} {k : String} :
    ∀ {j : Nat}, lastIdx fields k = some j →
      ∀ m, j < m → fields.get? m ≠ some k := by
  induction fields with
  | nil => intro j h; exact absurd h (by simp [lastIdx])
  | cons f rest ih =>
    intro j h m hm
    simp only [lastIdx] at h
    cases hl : lastIdx rest k with
    | some j' =>
      rw [hl] at h
      have hj := Option.some.inj h
      subst hj
      cases m with
      | zero => omega
      | succ m' => exact ih hl m' (by omega)
    | none =>
      rw [hl] at h
      by_cases hfk : f = k
      · rw [if_pos hfk] at h
        have hj := Option.some.inj h
        subst hj
        cases m with
        | zero => omega
        | succ m' => exact lastIdx_none hl m'
      · rw [if_neg hfk] at h
        exact absurd h (by simp)

lemma lastIdx_isSome_of_get {fields : List String} {k : String} {m : Nat}
    (h : fields.get? m = some k) : ∃ j, lastIdx fields k = some j := by
  cases hl : lastIdx fields k with
  | none => exact absurd h (lastIdx_none hl m)
  | some j => exact ⟨j, rfl⟩

lemma lookupVal_eq_some_of_mem :
    ∀ {d : List (String × Nat)}, (d.map Prod.fst).Nodup →
      ∀ {k : String} {v : Nat}, (k, v) ∈ d → lookupVal d k = some v := by
  intro d
  induction d with
  | nil => intro _ k v h; exact absurd h (by simp)
  | cons p rest ih =>
    intro hnd k v h
    obtain ⟨a, b⟩ := p
    simp only [List.map_cons, List.nodup_cons] at hnd
    rcases List.mem_cons.mp h with he | hm
    · have ha : a = k := by
        have := congrArg Prod.fst he.symm
        simpa using this
      have hb : b = v := by
        have := congrArg Prod.snd he.symm
        simpa using this
      subst ha
      subst hb
      simp [lookupVal]
    · have hak : ¬a = k := by
        intro hak
        subst hak
        exact hnd.1 (List.mem_map.mpr ⟨(a, v), hm, rfl⟩)
      simp only [lookupVal, if_neg hak]
      exact ih hnd.2 hm

/-! Claim theorems. -/

/-- Claim C1 (counterexample): the specification states that
_determine_datatype(["1.5","2"]) yields "float", but the code yields
"different": "2" is int-convertible, so the int branch rebinds it to an
int and skips the float branch, and the final comparison matches the
class int against the string "float". -/
theorem C1_counterexample :
    determineDatatype ([['1', '.', '5'], ['2']]) = .ok ("different") ∧
    Except.ok ("different") ≠ (Except.ok ("float") : Except Unit String) := by
  decide

/-- Claim C1 (amended): _determine_datatype(["1","2","3"]) yields "int",
_determine_datatype(["1.5","2"]) yields "different" (not "float", because
the int-convertible "2" falls through to a comparison of the class int
against the string "float"), and _determine_datatype(["a","1"]) yields
"different". -/
theorem C1_amended :
    determineDatatype ([['1'], ['2'], ['3']]) = .ok ("int") ∧
    determineDatatype ([['1', '.', '5'], ['2']]) = .ok ("different") ∧
    determineDatatype ([['a'], ['1']]) = .ok ("different") := by
  decide

/-- Claim C7: _determine_datatype on the empty value list logs an error
and terminates the process via sys.exit(1) instead of returning a
datatype tag, modelled by the error result. -/
theorem C7_empty_values_fatal : determineDatatype [] = .error () := rfl

/-- Claim C3 (counterexample): for the observed value "#1x" in a column
of class name "C", the attribute-name derivation uppercased is "1X",
which starts with a digit, so the specified rule would emit the prefixed
name "C_1X"; the code tests the digit against the RAW value "#1x"
instead, emits the unprefixed "1X", and that member name starts with a
digit, so it is not a legal identifier either. -/
theorem C3_counterexample :
    deriveEnumName (['C']) (['#', '1', 'x']) = ['1', 'X'] ∧
    specEnumName (['C']) (['#', '1', 'x']) = ['C', '_', '1', 'X'] ∧
    deriveEnumName (['C']) (['#', '1', 'x']) ≠
      specEnumName (['C']) (['#', '1', 'x']) ∧
    startsWithDigitPy (deriveEnumName (['C']) (['#', '1', 'x'])) = true := by
  decide

/-- Claim C3 (amended): the member name is the attribute-name derivation
of the value, uppercased; but when that result is a single character or
the RAW VALUE starts with a digit, the member name is the class name
uppercased, an underscore, and the RAW VALUE uppercased (not the derived
result), with no general identifier-legality guarantee. The value "1"
still yields a class-name-prefixed member and "Red" still yields "RED". -/
theorem C3_amended :
    (∀ className val, ((deriveAttributeName val).map toUpperPy).length ≠ 1 →
      startsWithDigitPy val = false →
      deriveEnumName className val = (deriveAttributeName val).map toUpperPy) ∧
    (∀ className val, (((deriveAttributeName val).map toUpperPy).length = 1 ∨
        startsWithDigitPy val = true) →
      deriveEnumName className val =
        className.map toUpperPy ++ '_' :: val.map toUpperPy) ∧
    (∀ className, deriveEnumName className (['1']) =
      className.map toUpperPy ++ ['_', '1']) ∧
    deriveEnumName (['C']) (['R', 'e', 'd']) = ['R', 'E', 'D'] := by
  refine ⟨?_, ?_, ?_, by decide⟩
  · intro className val h1 h2
    simp only [deriveEnumName, h2, Bool.or_false, decide_eq_true_eq]
    rw [if_neg h1]
  · intro className val h
    simp only [deriveEnumName]
    rcases h with h | h
    · rw [if_pos (by simp [h])]
    · rw [if_pos (by simp [h])]
  · intro className
    have h : startsWithDigitPy (['1']) = true := by decide
    simp only [deriveEnumName, h, Bool.or_true, if_true]
    rfl

/-- Claim C3 witness for the amended statement: instantiation of the
first branch at value "Red". -/
theorem C3_witness :
    deriveEnumName (['C']) (['R', 'e', 'd']) =
      (deriveAttributeName (['R', 'e', 'd'])).map toUpperPy :=
  C3_amended.1 (['C']) (['R', 'e', 'd']) (by decide) (by decide)

/-- Claim C5 (counterexample): the specification states the attribute
name derivation removes all whitespace, but only the space character is
removed: a tab survives re.sub (it matches \s), is unchanged by lower(),
and is not removed by replace(" ", ""), so the output can contain
whitespace. -/
theorem C5_counterexample :
    deriveAttributeName (['a', '\t', 'b']) = ['a', '\t', 'b'] ∧
    isSpacePy '\t' = true ∧ isLowerAlnumAscii '\t' = false := by
  decide

/-- Claim C5 (amended): the derivation strips every character that is not
alphanumeric or whitespace, lowercases, and removes remaining SPACE
characters, so every output character is a lowercase ASCII alphanumeric
or a non-space whitespace character; for inputs whose only whitespace is
the space character the output is purely lowercase alphanumeric. -/
theorem C5_amended :
    (∀ s c, c ∈ deriveAttributeName s →
      isLowerAlnumAscii c = true ∨ (isSpacePy c = true ∧ c ≠ ' ')) ∧
    (∀ s, (∀ c ∈ s, isSpacePy c = true → c = ' ') →
      ∀ c ∈ deriveAttributeName s, isLowerAlnumAscii c = true) := by
  constructor
  · intro s c hc
    obtain ⟨c₀, _, hlow, hkeep, hne⟩ := mem_deriveAttributeName hc
    rcases hkeep with h | h
    · exact Or.inl (hlow ▸ toLowerPy_of_alnum h)
    · refine Or.inr ⟨?_, hne⟩
      rw [← hlow, toLowerPy_of_space h]
      exact h
  · intro s hs c hc
    obtain ⟨c₀, hmem, hlow, hkeep, hne⟩ := mem_deriveAttributeName hc
    rcases hkeep with h | h
    · exact hlow ▸ toLowerPy_of_alnum h
    · exact absurd (by rw [← hlow, toLowerPy_of_space h, hs c₀ hmem h]) hne

/-- Claim C5 witness for the amended statement: instantiation at the
input "Ab!" and its output character a. -/
theorem C5_witness :
    isLowerAlnumAscii 'a' = true ∨ (isSpacePy 'a' = true ∧ 'a' ≠ ' ') :=
  C5_amended.1 (['A', 'b', '!']) 'a' (by decide)

/-- Claim C9: the scanner reads row[column_position] with no bounds
check; when every non-empty data row has at least column_position + 1
fields the scan always succeeds (the out-of-range branch is unreachable),
and a file with a shorter non-empty data row aborts the pass with the
uncaught IndexError (indexError), which is distinct from the logged
sys.exit path (emptyValuesExit) of the error taxonomy. -/
theorem C9_scan_bounds :
    (∀ (rows : List (List String)) (pos : Nat),
      (∀ row ∈ rows.drop 1, row ≠ [] → pos < row.length) →
      ∃ r, scanColumn rows pos = .ok r) ∧
    scanColumn ([["h", "i"], ["x"]]) 1 = .error .indexError ∧
    processColumn ([["h", "i"], ["x"]]) ("c") 1 10 ("i") ("m") ("t") ("u")
        ("l") = .error .indexError ∧
    ProfileError.indexError ≠ ProfileError.emptyValuesExit := by
  refine ⟨?_, by decide, by decide, by decide⟩
  intro rows pos h
  cases rows with
  | nil => exact ⟨(0, []), rfl⟩
  | cons r rest =>
    show ∃ r', scanLoop pos (r :: rest) 0 [] = .ok r'
    simp only [scanLoop, if_pos rfl]
    exact scanLoop_ok_of_inbounds pos rest 1 [] (by omega) (by simpa using h)

/-- Claim C9 witness: instantiation of the safety part at a two-column
file whose data row is wide enough. -/
theorem C9_witness : ∃ r, scanColumn ([["a"], ["b"]]) 0 = .ok r :=
  C9_scan_bounds.1 ([["a"], ["b"]]) 0 (by decide)

/-- Claim C2 (counterexample): a file with a blank line between data rows
produces a report whose per-value counts sum to 1 while the printed row
count (the percentage denominator) is 2, because row_ctr counts the blank
row that the value scan skips. -/
theorem C2_counterexample :
    Except.map (fun r => reportValueCountSum r.2)
      (processColumn ([["h"], [], ["x"]]) ("c") 0 5 ("i") ("m") ("t") ("u")
        ("l")) = .ok 1 ∧
    Except.map (fun r => reportDataRows r.2)
      (processColumn ([["h"], [], ["x"]]) ("c") 0 5 ("i") ("m") ("t") ("u")
        ("l")) = .ok (some 2) ∧
    ((1 : Nat) : Int) ≠ (2 : Int) := by
  refine ⟨rfl, rfl, by decide⟩

/-- Claim C2 (amended): for every column report written by the profiler
on a file with no blank data rows, the per-value counts over all
percentage lines sum exactly to the printed number of data rows, which is
the denominator of every percentage; a blank data row breaks the equality
because row_ctr counts it while the value table does not. -/
theorem C2_amended :
    ∀ (rows : List (List String)) (columnName : String) (pos maxEq : Nat)
      (infile methodPath ts user logfile : String) (p : ColumnProfile)
      (lines : List ReportLine),
      processColumn rows columnName pos maxEq infile methodPath ts user
        logfile = .ok (p, lines) →
      rows ≠ [] →
      (∀ row ∈ rows.drop 1, row ≠ []) →
      reportDataRows lines = some ((reportValueCountSum lines : Nat) : Int) := by
  intro rows cn pos maxEq infile m ts user l p lines h hne hrows
  simp only [processColumn] at h
  cases hp : profileColumn rows pos maxEq with
  | error e =>
    rw [hp] at h
    exact absurd h (by simp)
  | ok q =>
    rw [hp] at h
    have h' := Except.ok.inj h
    injection h' with hq hlines
    subst hq
    subst hlines
    have hs := profileColumn_scan hp
    cases rows with
    | nil => exact absurd rfl hne
    | cons r rest =>
      have hs' : scanLoop pos rest 1 [] = .ok (q.rowCtr, q.uniqValLookup) := hs
      obtain ⟨h1, h2⟩ := scanLoop_noBlank pos rest 1 [] q.rowCtr q.uniqValLookup
        (by omega) (by simpa using hrows) hs'
      rw [reportDataRows_write, reportValueCountSum_write, h1]
      have h2' : sumCounts q.uniqValLookup = rest.length := by
        simpa [sumCounts] using h2
      rw [h2']
      congr 1
      push_cast
      omega

/-- Claim C2 witness for the amended statement: a two-data-row file with
the single distinct value x prints 2 data rows and value counts summing
to 2. -/
theorem C2_witness :
    reportDataRows (writeColumnReportLines ("c") 0 ("i") 1 [("x", 2)] 3
        ("m") ("t") ("u") ("l")) =
      some ((reportValueCountSum (writeColumnReportLines ("c") 0 ("i") 1
        [("x", 2)] 3 ("m") ("t") ("u") ("l")) : Nat) : Int) :=
  C2_amended ([["h"], ["x"], ["x"]]) ("c") 0 5 ("i") ("m") ("t") ("u")
    ("l") _ _ rfl (by decide) (by decide)

/-- Claim C8: two runs of the per-column pipeline on the same parsed file
with the same configuration, differing only in the embedded timestamp and
invoking user, produce the same profile and reports of the same length
that agree on every line except line index 1 (date-created) and line
index 2 (created-by). -/
theorem C8_two_runs :
    ∀ (rows : List (List String)) (columnName : String) (pos maxEq : Nat)
      (infile methodPath logfile t₁ u₁ t₂ u₂ : String)
      (p₁ p₂ : ColumnProfile) (r₁ r₂ : List ReportLine),
      processColumn rows columnName pos maxEq infile methodPath t₁ u₁
        logfile = .ok (p₁, r₁) →
      processColumn rows columnName pos maxEq infile methodPath t₂ u₂
        logfile = .ok (p₂, r₂) →
      p₁ = p₂ ∧ r₁.length = r₂.length ∧
        ∀ i, i ≠ 1 → i ≠ 2 → r₁.get? i = r₂.get? i := by
  intro rows cn pos maxEq infile m l t₁ u₁ t₂ u₂ p₁ p₂ r₁ r₂ h₁ h₂
  simp only [processColumn] at h₁ h₂
  cases hp : profileColumn rows pos maxEq with
  | error e =>
    rw [hp] at h₁
    exact absurd h₁ (by simp)
  | ok p =>
    rw [hp] at h₁ h₂
    have h₁' := Except.ok.inj h₁
    have h₂' := Except.ok.inj h₂
    injection h₁' with ha₁ hb₁
    injection h₂' with ha₂ hb₂
    subst ha₁
    subst ha₂
    subst hb₁
    subst hb₂
    refine ⟨rfl, by simp [writeColumnReportLines], ?_⟩
    intro i h1 h2
    rcases i with _ | _ | _ | n
    · rfl
    · exact absurd rfl h1
    · exact absurd rfl h2
    · rfl

/-- Claim C8 witness: the reports of two runs with different timestamps
and users agree on their first line. -/
theorem C8_witness :
    List.get? (writeColumnReportLines ("c") 0 ("i") 1 [("x", 2)] 3 ("m")
      ("t1") ("u1") ("l")) 0 =
    List.get? (writeColumnReportLines ("c") 0 ("i") 1 [("x", 2)] 3 ("m")
      ("t2") ("u2") ("l")) 0 :=
  (C8_two_runs ([["h"], ["x"], ["x"]]) ("c") 0 5 ("i") ("m") ("l") ("t1")
    ("u1") ("t2") ("u2") _ _ _ _ rfl rfl).2.2 0 (by decide) (by decide)

/-- Claim C4: a profiled column is enum-eligible exactly when its
distinct-value count uniq_val_ctr is at most the configured
max_equality_values; with exactly 2 distinct values the column is
eligible for every threshold at least 2 and not eligible for
threshold 1. -/
theorem C4_enum_threshold :
    ∀ (rows : List (List String)) (pos maxEq : Nat) (p : ColumnProfile),
      profileColumn rows pos maxEq = .ok p →
      ((p.isEnum = true ↔ p.uniqValCtr ≤ maxEq) ∧
        (p.uniqValCtr = 2 → 2 ≤ maxEq → p.isEnum = true) ∧
        (p.uniqValCtr = 2 → maxEq = 1 → p.isEnum = false)) := by
  intro rows pos maxEq p h
  simp only [profileColumn] at h
  split at h
  · exact absurd h (by simp)
  · split at h
    · exact absurd h (by simp)
    · injection h with h
      subst h
      refine ⟨by simp [decide_eq_true_iff], ?_, ?_⟩
      · intro h2 hle
        simp only [ColumnProfile.uniqValCtr] at h2
        simp [h2, decide_eq_true_iff, hle]
      · intro h2 h1
        simp only [ColumnProfile.uniqValCtr] at h2
        simp [h2, h1]

/-- Claim C4 witness: a column with the two distinct values a and b and
threshold 2 is marked enum-eligible. -/
theorem C4_witness :
    ({ uniqValLookup := [("a", 1), ("b", 1)], uniqValCtr := 2, rowCtr := 3,
       datatype := "str", isEnum := true } : ColumnProfile).isEnum = true :=
  ((C4_enum_threshold ([["h"], ["a"], ["b"]]) 0 2 _ rfl).2.1) rfl (by decide)

/-- Claim C10: when the header row repeats a column name, the parser
keeps exactly one entry for that name (count 1 among the keys), mapped to
the position of its last occurrence; the position counter still advances
once per header field, so the logged column count is the full field
count; the position of an earlier duplicate occurrence is stored for no
column, so that column is never profiled; and the number of profiled
columns (entries of the lookup) is strictly below the logged count. -/
theorem C10_duplicate_headers :
    ∀ (fields : List String) (i j : Nat) (name : String),
      i < j → fields.get? i = some name → fields.get? j = some name →
      (headerLoop fields 0 []).2 = fields.length ∧
      ((headerLoop fields 0 []).1.map Prod.fst).count name = 1 ∧
      (∃ p, lookupVal (headerLoop fields 0 []).1 name = some p ∧
        fields.get? p = some name ∧ ∀ m, p < m → fields.get? m ≠ some name) ∧
      i ∉ (headerLoop fields 0 []).1.map Prod.snd ∧
      (headerLoop fields 0 []).1.length < fields.length := by
  intro fields i j name hij hi hj
  have hnamemem : name ∈ fields := List.get?_mem hi
  have hkeys_nodup : ((headerLoop fields 0 []).1.map Prod.fst).Nodup :=
    nodup_keys_headerLoop fields 0 [] (by simp)
  have hkeys_mem : ∀ k, k ∈ (headerLoop fields 0 []).1.map Prod.fst ↔ k ∈ fields := by
    intro k
    rw [mem_keys_headerLoop]
    simp
  have hfields_not_nodup : ¬fields.Nodup := by
    intro hnd
    obtain ⟨hilt, hig⟩ := List.get?_eq_some.mp hi
    obtain ⟨hjlt, hjg⟩ := List.get?_eq_some.mp hj
    have heq : fields.get ⟨i, hilt⟩ = fields.get ⟨j, hjlt⟩ := by rw [hig, hjg]
    have := hnd.get_inj_iff.mp heq
    have : i = j := congrArg Fin.val this
    omega
  refine ⟨by rw [headerLoop_ctr]; omega, ?_, ?_, ?_, ?_⟩
  · exact List.count_eq_one_of_mem hkeys_nodup ((hkeys_mem name).mpr hnamemem)
  · obtain ⟨p, hp⟩ := lastIdx_isSome_of_get hi
    refine ⟨p, ?_, lastIdx_get hp, lastIdx_last hp⟩
    rw [lookupVal_headerLoop]
    simp [hp]
  · intro hmem
    obtain ⟨q, hq_mem, hq_snd⟩ := List.mem_map.mp hmem
    have hq_pair : (q.1, q.2) ∈ (headerLoop fields 0 []).1 := by
      rw [Prod.mk.eta]
      exact hq_mem
    have hlook : lookupVal (headerLoop fields 0 []).1 q.1 = some q.2 :=
      lookupVal_eq_some_of_mem hkeys_nodup hq_pair
    rw [lookupVal_headerLoop] at hlook
    cases hl : lastIdx fields q.1 with
    | none =>
      rw [hl] at hlook
      simp [lookupVal] at hlook
    | some r =>
      rw [hl] at hlook
      simp only [Option.elim, Nat.zero_add] at hlook
      have hr : r = i := by
        have := Option.some.inj hlook
        omega
      subst hr
      have hget := lastIdx_get hl
      have hq1 : q.1 = name := Option.some.inj (hget.symm.trans hi)
      rw [hq1] at hl
      exact lastIdx_last hl j hij hj
  · have hsub : (headerLoop fields 0 []).1.map Prod.fst ⊆ fields :=
      fun k hk => (hkeys_mem k).mp hk
    have hsp := List.subperm_of_subset hkeys_nodup hsub
    have hle := hsp.length_le
    rw [List.length_map] at hle
    rcases Nat.lt_or_ge (headerLoop fields 0 []).1.length fields.length with h | h
    · exact h
    · exfalso
      have hperm := hsp.perm_of_length_le (by rw [List.length_map]; omega)
      exact hfields_not_nodup (hperm.nodup_iff.mp hkeys_nodup)

/-- Claim C10 witness: on the header a, b, a the logged column count is
the full field count 3. -/
theorem C10_witness :
    (headerLoop (["a", "b", "a"]) 0 []).2 = (["a", "b", "a"] : List String).length :=
  (C10_duplicate_headers (["a", "b", "a"]) 0 2 ("a") (by decide) rfl rfl).1

/-- Claim C6 (counterexample): the specification states that the header
parser fails on an empty input file, but the code returns the empty
mapping with a zero column count and continues. -/
theorem C6_counterexample :
    deriveColumnHeaders (some []) = .ok ([], 0) ∧
    (Except.ok (([] : List (String × Nat)), 0) : Except Unit _) ≠ .error () := by
  refine ⟨rfl, by decide⟩

/-- Claim C6 (amended): the header parser fails only when the input file
is missing; for every existing file (including an empty one, which yields
the empty mapping with column count 0) it returns a mapping, and for a
non-empty file with pairwise distinct header names it maps each header
name to its 0-based position. -/
theorem C6_amended :
    deriveColumnHeaders none = .error () ∧
    (∀ rows, ∃ v, deriveColumnHeaders (some rows) = .ok v) ∧
    deriveColumnHeaders (some []) = .ok ([], 0) ∧
    (∀ (headerRow : List String) (restRows : List (List String))
        (lookup : List (String × Nat)) (ctr : Nat),
      deriveColumnHeaders (some (headerRow :: restRows)) = .ok (lookup, ctr) →
      headerRow.Nodup →
      ctr = headerRow.length ∧
      ∀ idx nm, headerRow.get? idx = some nm → lookupVal lookup nm = some idx) := by
  refine ⟨rfl, ?_, rfl, ?_⟩
  · intro rows
    cases rows with
    | nil => exact ⟨([], 0), rfl⟩
    | cons h r => exact ⟨headerLoop h 0 [], rfl⟩
  · intro headerRow restRows lookup ctr h hnd
    have h' := Except.ok.inj h
    have hl : lookup = (headerLoop headerRow 0 []).1 := by rw [h']
    have hc : ctr = (headerLoop headerRow 0 []).2 := by rw [h']
    constructor
    · rw [hc, headerLoop_ctr]
      omega
    · intro idx nm hg
      rw [hl, lookupVal_headerLoop]
      obtain ⟨p, hp⟩ := lastIdx_isSome_of_get hg
      rw [hp]
      simp only [Option.elim, Nat.zero_add]
      have hgp := lastIdx_get hp
      obtain ⟨hplt, hpg⟩ := List.get?_eq_some.mp hgp
      obtain ⟨hilt, hig⟩ := List.get?_eq_some.mp hg
      have hfin := hnd.get_inj_iff.mp (hpg.trans hig.symm)
      have hpi : p = idx := congrArg Fin.val hfin
      rw [hpi]

/-- Claim C6 witness for the amended statement: in the duplicate-free
header a, b the name b is mapped to position 1. -/
theorem C6_witness :
    lookupVal (headerLoop (["a", "b"]) 0 []).1 ("b") = some 1 :=
  (C6_amended.2.2.2 (["a", "b"]) [] _ _ rfl (by decide)).2 1 ("b") (by decide)

end Profiler
